import Mathlib

/-!
Shallow embedding of `admin_upload.py`: the tabular reshaper
(`process_uploaded_to_pivot_df`, strategies A and B) and the publish client
(GET-sha / PUT-payload decision logic), together with theorems settling the
specification claims about them.

Tables are modelled as the spec's RawTable: an ordered list of column names
and rows of string cells (pandas cell values appear through `str(x)`).
-/

set_option maxHeartbeats 1000000

namespace AdminUpload

/-! ## String helpers (Python `.lower()`, `.strip()`, `in`, `.endswith`) -/

/-- Python `.lower()` on a string, as a character list. -/
def lowerChars (s : String) : List Char := s.data.map Char.toLower

/-- `beginsWith p l` is true when `p` is an initial segment of `l`. -/
def beginsWith : List Char → List Char → Bool
  | [], _ => true
  | _ :: _, [] => false
  | p :: ps, c :: cs => p == c && beginsWith ps cs

/-- `hasSub pat l` is true when `pat` occurs as a contiguous run inside `l`. -/
def hasSub (pat : List Char) : List Char → Bool
  | [] => pat.isEmpty
  | c :: cs => beginsWith pat (c :: cs) || hasSub pat cs

/-- Case-insensitive substring test: `pat in s` after lowering both sides
(pandas `str.contains(pat, case=False)` on the literal patterns used here). -/
def containsCI (pat s : String) : Bool := hasSub (lowerChars pat) (lowerChars s)

/-- `endsIn pat l` is true when `pat` is a final segment of `l`. -/
def endsIn (pat l : List Char) : Bool := beginsWith pat.reverse l.reverse

/-- Line 33: `uploaded.name.lower().endswith(".csv")`. -/
def isCsvName (nm : String) : Bool := endsIn ".csv".data (lowerChars nm)

/-- Drop leading whitespace characters. -/
def dropSpaces : List Char → List Char
  | [] => []
  | c :: cs => if c.isWhitespace then dropSpaces cs else c :: cs

/-- Python `str.strip()`: drop whitespace from both ends. -/
def trimChars (s : String) : List Char :=
  (dropSpaces (dropSpaces s.data.reverse).reverse)

/-- Lexicographic comparison of character lists by code point — Python's
string ordering, which pandas uses when sorting group keys. -/
def lexLe : List Char → List Char → Bool
  | [], _ => true
  | _ :: _, [] => false
  | a :: as, b :: bs => if a = b then lexLe as bs else decide (a.toNat < b.toNat)

/-- Python string `<=`. -/
def strLe (a b : String) : Bool := lexLe a.data b.data

/-! ## Data model -/

/-- The spec's RawTable: ordered named columns over rows of string cells.
A missing (NaN) cell is represented by the empty string. -/
structure RawTable where
  cols : List String
  rows : List (List String)
deriving DecidableEq

/-- A pivot cell: an identifier / division string, a count, or NaN. -/
inductive Cell where
  | str (s : String)
  | num (n : Nat)
  | na
deriving DecidableEq

/-- The normalized output table (pandas frame after `reset_index`). -/
structure Pivot where
  cols : List String
  rows : List (List Cell)
deriving DecidableEq

/-- Processing failures: `st.error` + `st.stop` (lines 86-87, 93-94) and the
pandas `InvalidIndexError` raised by `.map` over a non-unique index. -/
inductive PErr where
  | noRMSTP
  | noNameCol
  | invalidIndex
deriving DecidableEq

/-- Column selection `df[c]` followed by the row's value at that column:
walk columns and the row in parallel, first name match wins; missing → "". -/
def getCell : List String → List String → String → String
  | [], _, _ => ""
  | _ :: _, [], _ => ""
  | col :: cols, v :: vs, c => if col = c then v else getCell cols vs c

/-- Keep only the columns at the given positions (and their cells). -/
def selectIdxs (t : RawTable) (idxs : List Nat) : RawTable :=
  ⟨idxs.map (fun i => t.cols.getD i ""),
   t.rows.map (fun r => idxs.map (fun i => r.getD i ""))⟩

/-- Positions of columns having at least one non-empty cell
(`df.dropna(axis=1, how="all")`, NaN modelled as ""). -/
def keepIdxs (t : RawTable) : List Nat :=
  (List.range t.cols.length).filter
    (fun i => ! t.rows.all (fun r => r.getD i "" == ""))

/-- Line 37 / 69: drop all-empty columns. -/
def dropAllEmptyCols (t : RawTable) : RawTable := selectIdxs t (keepIdxs t)

/-- Python `str.strip()` returning a string. -/
def stripStr (s : String) : String := String.mk (trimChars s)

/-- Line 36 / 68: `df.columns.astype(str).str.strip()`. -/
def trimColNames (t : RawTable) : RawTable := ⟨t.cols.map stripStr, t.rows⟩

/-- Line 71: drop columns whose lowered name starts with "unnamed". -/
def dropUnnamedCols (t : RawTable) : RawTable :=
  selectIdxs t ((List.range t.cols.length).filter
    (fun i => ! beginsWith "unnamed".data (lowerChars (t.cols.getD i ""))))

/-- Lines 39-40 (same list at line 90). -/
def possible_name_cols : List String :=
  ["Employee Name", "Name of the Official", "Name", "Employee"]

/-- Lines 42 / 72 / 100: first column whose name contains "division" or
"unit", case-insensitively. -/
def findDivisionCol (cols : List String) : Option String :=
  cols.find? (fun c => containsCI "division" c || containsCI "unit" c)

/-- Line 40: first recognized name column, else the first column. -/
def nameColA (cols : List String) : String :=
  match cols.find? (fun c => possible_name_cols.contains c) with
  | some c => c
  | none => cols.headD ""

/-- Lines 46-49: serial-number / employee-number metadata columns. -/
def isMeta (c : String) : Bool :=
  containsCI "s.no" c || containsCI "employee no" c || containsCI "emp no" c

/-- Line 50: every column not excluded as identifier, division or metadata. -/
def courseColsA (cols : List String) : List String :=
  cols.filter (fun c =>
    !(c == nameColA cols) && !(some c == findDivisionCol cols) && ! isMeta c)

/-- Line 53: `1 if str(x).strip() == "1" else 0`. -/
def normCell (x : String) : Cell :=
  if trimChars x = ['1'] then Cell.num 1 else Cell.num 0

/-- Lines 35-37: CSV ingestion normalization. -/
def prepCSV (t : RawTable) : RawTable := dropAllEmptyCols (trimColNames t)

/-- One output row of the Strategy A pivot (lines 53-55): the identifier
cell followed by the normalized course cells. -/
def pivotRowA (cols : List String) (nm : String) (courses : List String)
    (r : List String) : List Cell :=
  Cell.str (getCell cols r nm) :: courses.map (fun c => normCell (getCell cols r c))

/-- `drop_duplicates()` (keep first occurrence). -/
def firstDedup {α : Type} [DecidableEq α] : List α → List α
  | [] => []
  | a :: l => a :: (firstDedup l).filter (fun b => b != a)

/-- The value `.map(div_series)` yields for one key: the division paired with
the key in the deduplicated (name, division) pairs. -/
def lookupFn (pairs : List (String × String)) (k : String) : Option String :=
  ((firstDedup pairs).find? (fun q => q.1 == k)).map (fun q => q.2)

/-- Lines 58-59 / 102-103: build `div_series` by `drop_duplicates` +
`set_index`, then `.map` it over the keys. pandas raises
`InvalidIndexError` when the resulting index is not unique. -/
def divLookup (pairs : List (String × String)) (keys : List String) :
    Except PErr (List (Option String)) :=
  if ((firstDedup pairs).map Prod.fst).Nodup then
    Except.ok (keys.map (lookupFn pairs))
  else Except.error PErr.invalidIndex

/-- Division cell attached to a pivot row (`map` misses become NaN). -/
def divCell : Option String → Cell
  | some v => Cell.str v
  | none => Cell.na

/-- The pivot rows before the division column is attached (lines 53-55). -/
def baseRowsA (raw : RawTable) : List (List Cell) :=
  (prepCSV raw).rows.map
    (pivotRowA (prepCSV raw).cols (nameColA (prepCSV raw).cols)
      (courseColsA (prepCSV raw).cols))

/-- The (identifier, division) value pairs of the CSV rows (line 58). -/
def divPairsA (raw : RawTable) (d : String) : List (String × String) :=
  (prepCSV raw).rows.map (fun r =>
    (getCell (prepCSV raw).cols r (nameColA (prepCSV raw).cols),
     getCell (prepCSV raw).cols r d))

/-- The identifier value of every CSV row, in row order (line 59's keys). -/
def nameValsA (raw : RawTable) : List String :=
  (prepCSV raw).rows.map
    (fun r => getCell (prepCSV raw).cols r (nameColA (prepCSV raw).cols))

/-- Strategy A (lines 33-60): indicator pivot of a single CSV table. -/
def stratA (raw : RawTable) : Except PErr Pivot :=
  match findDivisionCol (prepCSV raw).cols with
  | none =>
    Except.ok ⟨nameColA (prepCSV raw).cols :: courseColsA (prepCSV raw).cols,
      baseRowsA raw⟩
  | some d =>
    match divLookup (divPairsA raw d) (nameValsA raw) with
    | Except.error e => Except.error e
    | Except.ok divs =>
      Except.ok ⟨nameColA (prepCSV raw).cols :: courseColsA (prepCSV raw).cols
          ++ ["Division/ Unit"],
        ((baseRowsA raw).zip divs).map (fun q => q.1 ++ [divCell q.2])⟩

/-! ## Strategy B (lines 61-108) -/

/-- Lines 66-71: per-sheet normalization (trim names, drop empty columns,
drop "unnamed" columns). -/
def prepSheet (raw : RawTable) : RawTable :=
  dropUnnamedCols (dropAllEmptyCols (trimColNames raw))

/-- Lines 72-80: the RMS TP row filter. With a division column, keep rows
whose division value contains "RMS TP"; otherwise keep rows where any cell
contains it. -/
def filterSheet (t : RawTable) : List (List String) :=
  match findDivisionCol t.cols with
  | some d => t.rows.filter (fun r => containsCI "RMS TP" (getCell t.cols r d))
  | none => t.rows.filter (fun r => r.any (fun cell => containsCI "RMS TP" cell))

/-- The per-sheet tables that survive the RMS TP filter, in sheet order,
each reduced to its matching rows (lines 81-84: empty results are skipped). -/
def surviving (sheets : List (String × RawTable)) : List (String × RawTable) :=
  (sheets.map (fun s => (s.1, RawTable.mk (prepSheet s.2).cols (filterSheet (prepSheet s.2)))))
    |>.filter (fun s => ! s.2.rows.isEmpty)

/-- Line 83: the "Course Name" column is appended unless already present. -/
def withCourseCol (cols : List String) : List String :=
  if cols.contains "Course Name" then cols else cols ++ ["Course Name"]

/-- `pd.concat` union of column lists in first-seen order. -/
def addCols (acc cs : List String) : List String :=
  acc ++ cs.filter (fun c => ! acc.contains c)

/-- Columns of the concatenated frame. -/
def colsUnion (svs : List (String × RawTable)) : List String :=
  (svs.map (fun s => withCourseCol s.2.cols)).foldl addCols []

/-- A surviving sheet's row re-expressed over the combined columns:
"Course Name" holds the sheet name, the sheet's own columns keep their
values, columns from other sheets are NaN (""). -/
def reindexRow (allCols : List String) (sheetName : String)
    (cols : List String) (r : List String) : List String :=
  allCols.map (fun c =>
    if c = "Course Name" then sheetName
    else if cols.contains c then getCell cols r c else "")

/-- Lines 63-84: the concatenated RMS TP rows of all sheets. -/
def combine (sheets : List (String × RawTable)) : RawTable :=
  ⟨colsUnion (surviving sheets),
   (surviving sheets).flatMap
     (fun s => s.2.rows.map (reindexRow (colsUnion (surviving sheets)) s.1 s.2.cols))⟩

/-- Line 91: exact-name identifier search on the combined columns. -/
def findNameColB (sheets : List (String × RawTable)) : Option String :=
  (combine sheets).cols.find? (fun c => possible_name_cols.contains c)

/-- The combined rows whose identifier value is present: `pivot_table`
groups with `dropna=True`, so a row whose identifier key is missing (NaN,
modelled as "") is dropped from the aggregation. -/
def keyedRows (sheets : List (String × RawTable)) (nm : String) :
    List (List String) :=
  (combine sheets).rows.filter
    (fun r => !(getCell (combine sheets).cols r nm == ""))

/-- The identifier values of the rows that enter the aggregation. -/
def nameValsB (sheets : List (String × RawTable)) (nm : String) : List String :=
  (keyedRows sheets nm).map (fun r => getCell (combine sheets).cols r nm)

/-- The "Course Name" values of the rows that enter the aggregation. -/
def courseValsB (sheets : List (String × RawTable)) (nm : String) : List String :=
  (keyedRows sheets nm).map (fun r => getCell (combine sheets).cols r "Course Name")

/-- `pivot_table` row index: sorted unique identifier values. -/
def namesB (sheets : List (String × RawTable)) (nm : String) : List String :=
  List.insertionSort (fun a b => strLe a b = true) (firstDedup (nameValsB sheets nm))

/-- `pivot_table` column labels: sorted unique "Course Name" values among
the aggregated rows. -/
def coursesB (sheets : List (String × RawTable)) (nm : String) : List String :=
  List.insertionSort (fun a b => strLe a b = true) (firstDedup (courseValsB sheets nm))

/-- One `pivot_table` cell: `aggfunc="sum"` over `PRESENT = 1`, i.e. the
number of combined rows carrying the given (identifier, course) pair. -/
def countNC (sheets : List (String × RawTable)) (nm n co : String) : Nat :=
  ((combine sheets).rows.filter (fun r =>
    getCell (combine sheets).cols r nm == n
      && getCell (combine sheets).cols r "Course Name" == co)).length

/-- The `pivot_table` rows after `reset_index`, before division attach. -/
def baseRowsB (sheets : List (String × RawTable)) (nm : String) :
    List (List Cell) :=
  (namesB sheets nm).map (fun n =>
    Cell.str n :: (coursesB sheets nm).map (fun co => Cell.num (countNC sheets nm n co)))

/-- The (identifier, division) value pairs of the combined rows (line 102). -/
def divPairsB (sheets : List (String × RawTable)) (nm d : String) :
    List (String × String) :=
  (combine sheets).rows.map (fun r =>
    (getCell (combine sheets).cols r nm, getCell (combine sheets).cols r d))

/-- Strategy B (lines 61-108): filter to RMS TP rows, concatenate, then
count-aggregate employee x course, attaching the division column if found. -/
def stratB (sheets : List (String × RawTable)) : Except PErr Pivot :=
  if (combine sheets).rows.isEmpty then Except.error PErr.noRMSTP
  else
    match findNameColB sheets with
    | none => Except.error PErr.noNameCol
    | some nm =>
      match findDivisionCol (combine sheets).cols with
      | none => Except.ok ⟨nm :: coursesB sheets nm, baseRowsB sheets nm⟩
      | some d =>
        match divLookup (divPairsB sheets nm d) (namesB sheets nm) with
        | Except.error e => Except.error e
        | Except.ok divs =>
          Except.ok ⟨nm :: coursesB sheets nm ++ ["Division/ Unit"],
            ((baseRowsB sheets nm).zip divs).map (fun q => q.1 ++ [divCell q.2])⟩

/-! ## Top-level flow and publish client (lines 111-166) -/

/-- An upload: its file name, and its bytes as parsed by `pd.read_csv`
respectively `pd.ExcelFile` (one RawTable per sheet, header already taken
from the second physical row). -/
structure Upload where
  name : String
  csvData : RawTable
  sheets : List (String × RawTable)

/-- Line 111 via lines 32-34 / 61-63: dispatch on the lowered file name. -/
def processUpload (u : Upload) : Except PErr Pivot :=
  if isCsvName u.name then stratA u.csvData else stratB u.sheets

/-- The parsed JSON body of the GET response: its Python truthiness and the
result of `.get("sha")`. -/
structure GetJson where
  truthy : Bool
  sha : Option String
deriving DecidableEq

/-- The GET response (line 129): status code and parsed body
(`none` when `resp_get.json()` raised). -/
structure RespGet where
  status : Nat
  json : Option GetJson
deriving DecidableEq

/-- Truthiness of `get_json` at line 138. -/
def jsonTruthy (r : RespGet) : Bool :=
  match r.json with
  | some j => j.truthy
  | none => false

/-- Lines 138-150: the sha to use for the PUT, or a fatal fetch error. -/
def shaDecision (r : RespGet) : Except Nat (Option String) :=
  if r.status = 200 ∧ jsonTruthy r then
    Except.ok (r.json.bind (fun j => j.sha))
  else if r.status = 404 then Except.ok none
  else Except.error r.status

/-- The PUT request body (lines 154-160). -/
structure Payload where
  message : String
  content : String
  branch : String
  sha : Option String
deriving DecidableEq

/-- Line 159: `if sha:` — the field is attached only for a truthy sha. -/
def shaIfTruthy : Option String → Option String
  | some s => if s = "" then none else some s
  | none => none

/-- Lines 154-160. -/
def mkPayload (content : String) (sha : Option String) : Payload :=
  ⟨"Admin: update processed pivot", content, "main", shaIfTruthy sha⟩

/-- CSV cell rendering for the published file. -/
def cellToCSV : Cell → String
  | Cell.str s => s
  | Cell.num n => toString n
  | Cell.na => ""

/-- Line 117: `pivot_df.to_csv(index=False)`. -/
def pivotToCSV (p : Pivot) : String :=
  String.intercalate "\x0a"
    (String.intercalate "," p.cols :: p.rows.map (fun r => String.intercalate "," (r.map cellToCSV)))

/-- The network requests the script can issue. -/
inductive NetCall where
  | get
  | put (p : Payload)
deriving DecidableEq

/-- How one run ends. -/
inductive FlowResult where
  | halted (e : PErr)
  | fetchFailed (status : Nat)
  | published (p : Payload)
deriving DecidableEq

/-- The straight-line script: process (line 111), GET (line 129), decide the
sha (lines 138-150), PUT (line 166). Returns the network calls issued, in
order, and the outcome. -/
def runFlow (u : Upload) (g : RespGet) : List NetCall × FlowResult :=
  match processUpload u with
  | Except.error e => ([], FlowResult.halted e)
  | Except.ok pv =>
    match shaDecision g with
    | Except.error s => ([NetCall.get], FlowResult.fetchFailed s)
    | Except.ok sha =>
      let payload := mkPayload (pivotToCSV pv) sha
      ([NetCall.get, NetCall.put payload], FlowResult.published payload)

/-! ## Helper lemmas -/

/-- The head cell of a pivot row. -/
def headCell (r : List Cell) : Cell := r.headD Cell.na

/-- The identifier column of a pivot, read off its rows. -/
def idents (p : Pivot) : List Cell := p.rows.map headCell

/-- Tail of the pivot column list contributed by the division column. -/
def divTail : Option String → List String
  | none => []
  | some _ => ["Division/ Unit"]

theorem mem_firstDedup {α : Type} [DecidableEq α] {a : α} {l : List α} :
    a ∈ firstDedup l ↔ a ∈ l := by
  induction l with
  | nil => exact Iff.rfl
  | cons b l ih =>
    simp only [firstDedup, List.mem_cons, List.mem_filter, bne_iff_ne, ih]
    by_cases hab : a = b
    · simp [hab]
    · simp [hab]

theorem nodup_firstDedup {α : Type} [DecidableEq α] (l : List α) :
    (firstDedup l).Nodup := by
  induction l with
  | nil => exact List.nodup_nil
  | cons b l ih =>
    refine List.nodup_cons.mpr ⟨?_, List.Nodup.filter _ ih⟩
    intro hb
    rcases List.mem_filter.mp hb with ⟨-, hker⟩
    simp at hker

theorem getCell_map (f : String → String) {c : String} {cols : List String}
    (h : c ∈ cols) : getCell cols (cols.map f) c = f c := by
  induction cols with
  | nil => cases h
  | cons a cols ih =>
    simp only [List.map_cons, getCell]
    by_cases hac : a = c
    · rw [if_pos hac, hac]
    · rw [if_neg hac]
      exact ih ((List.mem_cons.mp h).resolve_left (fun hc => hac hc.symm))

theorem getCell_mem_or_blank :
    ∀ (cols r : List String) (c : String),
      getCell cols r c = "" ∨ getCell cols r c ∈ r
  | [], _, _ => Or.inl rfl
  | _ :: _, [], _ => Or.inl rfl
  | col :: cols, v :: vs, c => by
    simp only [getCell]
    by_cases h : col = c
    · rw [if_pos h]; exact Or.inr (List.mem_cons_self _ _)
    · rw [if_neg h]
      rcases getCell_mem_or_blank cols vs c with h' | h'
      · exact Or.inl h'
      · exact Or.inr (List.mem_cons_of_mem _ h')

theorem mem_addCols {x : String} {acc cs : List String} :
    x ∈ addCols acc cs ↔ x ∈ acc ∨ x ∈ cs := by
  simp only [addCols, List.mem_append, List.mem_filter]
  by_cases hx : x ∈ acc
  · simp [hx]
  · simp [hx]

theorem mem_foldl_addCols {x : String} :
    ∀ (ls : List (List String)) (acc : List String),
      (x ∈ acc ∨ ∃ l ∈ ls, x ∈ l) → x ∈ ls.foldl addCols acc
  | [], acc => by
    rintro (h | ⟨l, hl, -⟩)
    · exact h
    · cases hl
  | cs :: ls, acc => by
    intro h
    apply mem_foldl_addCols ls (addCols acc cs)
    rcases h with h | ⟨l, hl, hx⟩
    · exact Or.inl (mem_addCols.mpr (Or.inl h))
    · rcases List.mem_cons.mp hl with rfl | hl2
      · exact Or.inl (mem_addCols.mpr (Or.inr hx))
      · exact Or.inr ⟨l, hl2, hx⟩

theorem map_headCell_cons {α : Type} (g : α → String) (h : α → List Cell)
    (l : List α) :
    (l.map (fun x => Cell.str (g x) :: h x)).map headCell
      = l.map (fun x => Cell.str (g x)) := by
  induction l with
  | nil => rfl
  | cons a l ih => simp_all [headCell]

theorem map_headCell_zipAppend :
    ∀ (bs : List (List Cell)) (ds : List (Option String)),
      bs.length = ds.length → (∀ b ∈ bs, b ≠ []) →
      ((bs.zip ds).map (fun q => q.1 ++ [divCell q.2])).map headCell
        = bs.map headCell
  | [], _, _, _ => by simp
  | b :: bs, [], hlen, _ => by cases hlen
  | b :: bs, d :: ds, hlen, hne => by
    simp only [List.zip_cons_cons, List.map_cons]
    rw [map_headCell_zipAppend bs ds (by simpa using hlen)
      (fun x hx => hne x (List.mem_cons_of_mem _ hx))]
    have hb := hne b (List.mem_cons_self _ _)
    cases b with
    | nil => exact absurd rfl hb
    | cons c cb => simp [headCell]

theorem cellStr_inj : Function.Injective Cell.str := by
  intro a b h
  injection h

theorem map_headCell_baseRowsA (raw : RawTable) :
    (baseRowsA raw).map headCell = (nameValsA raw).map Cell.str := by
  unfold baseRowsA nameValsA
  induction (prepCSV raw).rows with
  | nil => rfl
  | cons r rows ih => simp_all [pivotRowA, headCell]

theorem map_headCell_baseRowsB (sheets : List (String × RawTable)) (nm : String) :
    (baseRowsB sheets nm).map headCell = (namesB sheets nm).map Cell.str := by
  unfold baseRowsB
  induction namesB sheets nm with
  | nil => rfl
  | cons n ns ih => simp_all [headCell]

theorem contains_RMSTP_blank : containsCI "RMS TP" "" = false := by decide

theorem char_toNat_inj {a b : Char} (h : a.toNat = b.toNat) : a = b := by
  have := congrArg Char.ofNat h
  rwa [Char.ofNat_toNat, Char.ofNat_toNat] at this

theorem lexLe_total : ∀ as bs : List Char,
    lexLe as bs = true ∨ lexLe bs as = true
  | [], _ => Or.inl rfl
  | _ :: _, [] => Or.inr rfl
  | a :: as, b :: bs => by
    by_cases hab : a = b
    · subst hab
      simp only [lexLe, if_pos rfl]
      exact lexLe_total as bs
    · have hnat : a.toNat ≠ b.toNat := fun h => hab (char_toNat_inj h)
      simp only [lexLe, if_neg hab, if_neg (Ne.symm hab)]
      rcases Nat.lt_or_ge a.toNat b.toNat with h | h
      · exact Or.inl (by simpa using h)
      · refine Or.inr ?_
        simp only [decide_eq_true_eq]
        omega

theorem lexLe_trans : ∀ as bs cs : List Char,
    lexLe as bs = true → lexLe bs cs = true → lexLe as cs = true
  | [], _, _, _, _ => rfl
  | _ :: _, [], _, h, _ => by cases h
  | _ :: _, _ :: _, [], _, h => by cases h
  | a :: as, b :: bs, c :: cs, h1, h2 => by
    simp only [lexLe] at h1 h2 ⊢
    by_cases hab : a = b
    · subst hab
      rw [if_pos rfl] at h1
      by_cases hac : a = c
      · subst hac
        rw [if_pos rfl] at h2
        rw [if_pos rfl]
        exact lexLe_trans as bs cs h1 h2
      · rw [if_neg hac] at h2
        rw [if_neg hac]
        exact h2
    · rw [if_neg hab] at h1
      by_cases hbc : b = c
      · subst hbc
        rw [if_neg hab]
        exact h1
      · rw [if_neg hbc] at h2
        simp only [decide_eq_true_eq] at h1 h2
        have hac : a ≠ c := by
          intro h
          subst h
          omega
        rw [if_neg hac]
        simp only [decide_eq_true_eq]
        omega

instance strLe_isTotal : IsTotal String (fun a b => strLe a b = true) :=
  ⟨fun a b => lexLe_total a.data b.data⟩

instance strLe_isTrans : IsTrans String (fun a b => strLe a b = true) :=
  ⟨fun a b c => lexLe_trans a.data b.data c.data⟩

theorem divLookup_ok_val {pairs : List (String × String)} {keys : List String}
    {divs : List (Option String)} (h : divLookup pairs keys = Except.ok divs) :
    divs = keys.map (lookupFn pairs) := by
  unfold divLookup at h
  split at h
  · injection h with h
    exact h.symm
  · cases h

theorem stratA_ok_shape {raw : RawTable} {p : Pivot}
    (h : stratA raw = Except.ok p) :
    p.cols = nameColA (prepCSV raw).cols :: courseColsA (prepCSV raw).cols
        ++ divTail (findDivisionCol (prepCSV raw).cols)
    ∧ idents p = ((prepCSV raw).rows.map
        (fun r => getCell (prepCSV raw).cols r (nameColA (prepCSV raw).cols))).map
          Cell.str := by
  unfold stratA at h
  split at h
  case _ hdiv =>
    injection h with h
    subst h
    rw [hdiv]
    refine ⟨by simp [divTail], ?_⟩
    simp only [idents]
    exact map_headCell_baseRowsA raw
  case _ d hdiv =>
    split at h
    · cases h
    case _ divs hdl =>
      injection h with h
      subst h
      rw [hdiv]
      constructor
      · simp [divTail]
      · simp only [idents]
        rw [map_headCell_zipAppend]
        · exact map_headCell_baseRowsA raw
        · rw [divLookup_ok_val hdl]
          simp [baseRowsA, nameValsA]
        · intro b hb
          rcases List.mem_map.mp hb with ⟨r, -, rfl⟩
          simp [pivotRowA]

theorem stratB_ok_shape {sheets : List (String × RawTable)} {p : Pivot}
    {nm : String} (hnm : findNameColB sheets = some nm)
    (h : stratB sheets = Except.ok p) :
    p.cols = nm :: coursesB sheets nm
        ++ divTail (findDivisionCol (combine sheets).cols)
    ∧ idents p = (namesB sheets nm).map Cell.str := by
  unfold stratB at h
  split at h
  · cases h
  rw [hnm] at h
  simp only at h
  split at h
  case _ hdiv =>
    injection h with h
    subst h
    rw [hdiv]
    refine ⟨by simp [divTail], ?_⟩
    simp only [idents]
    exact map_headCell_baseRowsB sheets nm
  case _ d hdiv =>
    split at h
    · cases h
    case _ divs hdl =>
      injection h with h
      subst h
      rw [hdiv]
      constructor
      · simp [divTail]
      · simp only [idents]
        rw [map_headCell_zipAppend]
        · exact map_headCell_baseRowsB sheets nm
        · rw [divLookup_ok_val hdl]
          simp [baseRowsB]
        · intro b hb
          rcases List.mem_map.mp hb with ⟨n, -, rfl⟩
          simp [baseRowsB]

theorem divLookup_conflict {pairs : List (String × String)} (keys : List String)
    {n d1 d2 : String} (h1 : (n, d1) ∈ pairs) (h2 : (n, d2) ∈ pairs)
    (hne : d1 ≠ d2) :
    divLookup pairs keys = Except.error PErr.invalidIndex := by
  unfold divLookup
  rw [if_neg]
  intro hnd
  have e1 : (n, d1) ∈ firstDedup pairs := mem_firstDedup.mpr h1
  have e2 : (n, d2) ∈ firstDedup pairs := mem_firstDedup.mpr h2
  have heq := List.inj_on_of_nodup_map hnd e1 e2 rfl
  exact hne (congrArg Prod.snd heq)

theorem divLookup_consistent {pairs : List (String × String)}
    (hcons : ∀ n d1 d2, (n, d1) ∈ pairs → (n, d2) ∈ pairs → d1 = d2)
    (keys : List String) :
    divLookup pairs keys = Except.ok (keys.map (lookupFn pairs)) := by
  unfold divLookup
  rw [if_pos]
  refine List.Nodup.map_on ?_ (nodup_firstDedup pairs)
  rintro ⟨x1, x2⟩ hx ⟨y1, y2⟩ hy hxy
  simp only at hxy
  subst hxy
  have hx2 := mem_firstDedup.mp hx
  have hy2 := mem_firstDedup.mp hy
  rw [hcons x1 x2 y2 hx2 hy2]

theorem lookupFn_eq {pairs : List (String × String)} {k v : String}
    (hcons : ∀ n d1 d2, (n, d1) ∈ pairs → (n, d2) ∈ pairs → d1 = d2)
    (hkv : (k, v) ∈ pairs) : lookupFn pairs k = some v := by
  unfold lookupFn
  rcases hf : (firstDedup pairs).find? (fun q => q.1 == k) with _ | q
  · exfalso
    have := List.find?_eq_none.mp hf (k, v) (mem_firstDedup.mpr hkv)
    simp at this
  · obtain ⟨q1, q2⟩ := q
    have hq1 : q1 = k := by simpa using List.find?_some hf
    subst hq1
    have hqmem : (q1, q2) ∈ pairs := mem_firstDedup.mp (List.mem_of_find?_eq_some hf)
    rw [hf]
    simp [hcons q1 q2 v hqmem hkv]

theorem courseName_mem_withCourseCol (cols : List String) :
    "Course Name" ∈ withCourseCol cols := by
  unfold withCourseCol
  by_cases h : "Course Name" ∈ cols
  · rw [if_pos (by simpa using h)]
    exact h
  · rw [if_neg (by simpa using h)]
    exact List.mem_append_right _ (by simp)

theorem courseName_mem_colsUnion {sheets : List (String × RawTable)}
    {s : String × RawTable} (hs : s ∈ surviving sheets) :
    "Course Name" ∈ colsUnion (surviving sheets) := by
  unfold colsUnion
  exact mem_foldl_addCols _ _
    (Or.inr ⟨withCourseCol s.2.cols,
      List.mem_map.mpr ⟨s, hs, rfl⟩, courseName_mem_withCourseCol _⟩)

theorem getCell_reindex_courseName {U : List String} (hU : "Course Name" ∈ U)
    (snm : String) (cols r : List String) :
    getCell U (reindexRow U snm cols r) "Course Name" = snm := by
  unfold reindexRow
  rw [getCell_map _ hU, if_pos rfl]

theorem rows_ne_nil_of_mem_surviving {sheets : List (String × RawTable)}
    {s : String × RawTable} (hs : s ∈ surviving sheets) : s.2.rows ≠ [] := by
  rcases List.mem_filter.mp hs with ⟨-, hpred⟩
  simp only [Bool.not_eq_true'] at hpred
  intro hnil
  rw [List.isEmpty_eq_false_iff_exists_mem] at hpred
  rcases hpred with ⟨x, hx⟩
  rw [hnil] at hx
  cases hx

theorem combine_cols (sheets : List (String × RawTable)) :
    (combine sheets).cols = colsUnion (surviving sheets) := rfl

theorem combine_rows (sheets : List (String × RawTable)) :
    (combine sheets).rows
      = (surviving sheets).flatMap
          (fun s => s.2.rows.map
            (reindexRow (colsUnion (surviving sheets)) s.1 s.2.cols)) := rfl

theorem mem_coursesB {sheets : List (String × RawTable)} {nm co : String} :
    co ∈ coursesB sheets nm ↔
      ∃ r ∈ (combine sheets).rows,
        getCell (combine sheets).cols r nm ≠ ""
        ∧ getCell (combine sheets).cols r "Course Name" = co := by
  unfold coursesB courseValsB keyedRows
  rw [List.mem_insertionSort, mem_firstDedup]
  simp only [List.mem_map, List.mem_filter, Bool.not_eq_true', beq_eq_false_iff_ne,
    ne_eq]
  constructor
  · rintro ⟨r, ⟨hr, hne⟩, rfl⟩
    exact ⟨r, hr, hne, rfl⟩
  · rintro ⟨r, hr, hne, rfl⟩
    exact ⟨r, ⟨hr, hne⟩, rfl⟩

theorem coursesB_subset_sheetNames {sheets : List (String × RawTable)}
    {nm co : String} (h : co ∈ coursesB sheets nm) :
    co ∈ (surviving sheets).map Prod.fst := by
  rcases mem_coursesB.mp h with ⟨r, hr, -, hco⟩
  rw [combine_rows] at hr
  rcases List.mem_flatMap.mp hr with ⟨s, hs, hrs⟩
  rcases List.mem_map.mp hrs with ⟨r0, -, rfl⟩
  rw [combine_cols, getCell_reindex_courseName (courseName_mem_colsUnion hs)]
    at hco
  exact List.mem_map.mpr ⟨s, hs, hco⟩

theorem filterSheet_eq_nil {t : RawTable}
    (h : ∀ r ∈ t.rows, ∀ cell ∈ r, containsCI "RMS TP" cell = false) :
    filterSheet t = [] := by
  unfold filterSheet
  split
  case _ d hd =>
    apply List.filter_eq_nil_iff.mpr
    intro r hr
    rcases getCell_mem_or_blank t.cols r d with hg | hg
    · rw [hg, contains_RMSTP_blank]
      simp
    · rw [h r hr _ hg]
      simp
  case _ =>
    apply List.filter_eq_nil_iff.mpr
    intro r hr
    rw [Bool.not_eq_true, List.any_eq_false]
    exact fun cell hc => by rw [h r hr cell hc]; simp

theorem surviving_eq_nil {sheets : List (String × RawTable)}
    (h : ∀ s ∈ sheets, filterSheet (prepSheet s.2) = []) :
    surviving sheets = [] := by
  unfold surviving
  apply List.filter_eq_nil_iff.mpr
  intro x hx
  rcases List.mem_map.mp hx with ⟨s, hs, rfl⟩
  simp [h s hs]

theorem surviving_append_skip (pre post : List (String × RawTable))
    (s : String × RawTable) (hs : filterSheet (prepSheet s.2) = []) :
    surviving (pre ++ s :: post) = surviving (pre ++ post) := by
  unfold surviving
  simp [List.map_append, List.filter_append, hs]

theorem nodup_namesB (sheets : List (String × RawTable)) (nm : String) :
    (namesB sheets nm).Nodup :=
  (List.perm_insertionSort _ _).nodup_iff.mpr (nodup_firstDedup _)

theorem stratB_ok_findName {sheets : List (String × RawTable)} {p : Pivot}
    (h : stratB sheets = Except.ok p) :
    ∃ nm, findNameColB sheets = some nm := by
  unfold stratB at h
  split at h
  · cases h
  rcases hnm : findNameColB sheets with _ | nm
  · rw [hnm] at h
    cases h
  · exact ⟨nm, rfl⟩

/-! ## Concrete tables used by the claims -/

/-- The spec's CSV scenario input. -/
def c8input : RawTable :=
  ⟨["Employee Name", "Division", "CourseA", "CourseB"],
   [["Alice", "HR", "1", "0"], ["Bob", "IT", "0", "1"]]⟩

/-- The spec's expected pivot for `c8input`. -/
def c8output : Pivot :=
  ⟨["Employee Name", "CourseA", "CourseB", "Division/ Unit"],
   [[Cell.str "Alice", Cell.num 1, Cell.num 0, Cell.str "HR"],
    [Cell.str "Bob", Cell.num 0, Cell.num 1, Cell.str "IT"]]⟩

/-- A CSV input whose identifier column repeats a value. -/
def c1input : RawTable :=
  ⟨["Employee Name", "CourseA"], [["Alice", "1"], ["Alice", "0"]]⟩

/-- A one-sheet workbook with a recognized name column and an RMS TP row. -/
def w1sheets : List (String × RawTable) :=
  [("CourseX", ⟨["Employee Name", "Remarks"], [["Alice", "RMS TP"]]⟩)]

/-- The pivot Strategy B produces from `w1sheets`. -/
def w1pivot : Pivot :=
  ⟨["Employee Name", "CourseX"], [[Cell.str "Alice", Cell.num 1]]⟩

/-- A workbook whose sheets appear in the order Zeta, Alpha. -/
def c3sheets : List (String × RawTable) :=
  [("Zeta", ⟨["Employee Name", "Remarks"], [["Alice", "RMS TP"]]⟩),
   ("Alpha", ⟨["Employee Name", "Remarks"], [["Bob", "rms tp yes"]]⟩)]

/-- Regression check for the aggregation's missing-key behavior: a sheet
whose surviving rows lack the identifier column (its identifier cells are
missing after concatenation) contributes neither a pivot row nor a course
column, exactly as `pivot_table` drops NaN group keys. -/
theorem stratB_drops_missing_identifier_rows :
    stratB [("A", ⟨["Employee Name", "Remarks"], [["Alice", "RMS TP"]]⟩),
            ("B", ⟨["Dept", "Remarks"], [["X", "RMS TP"]]⟩)]
      = Except.ok ⟨["Employee Name", "A"], [[Cell.str "Alice", Cell.num 1]]⟩ := by
  rfl

/-! ## Claims -/

/-- C2: in the CSV path a course cell normalizes to 1 exactly when its
trimmed string value equals "1"; anything else (including "0", "", "true")
normalizes to 0; and the course cells of every Strategy A output row are
exactly these normalized values of the input cells. -/
theorem c2_csv_normalization (x : String) (cols : List String) (nm : String)
    (courses : List String) (r : List String) (c : String) (hc : c ∈ courses) :
    (normCell x = Cell.num 1 ↔ trimChars x = ['1'])
    ∧ (trimChars x ≠ ['1'] → normCell x = Cell.num 0)
    ∧ normCell (getCell cols r c) ∈ pivotRowA cols nm courses r := by
  refine ⟨?_, ?_, ?_⟩
  · unfold normCell
    split <;> simp_all
  · intro h
    unfold normCell
    rw [if_neg h]
  · unfold pivotRowA
    exact List.mem_cons_of_mem _ (List.mem_map.mpr ⟨c, hc, rfl⟩)

theorem c2_csv_normalization_witness :
    (normCell "true" = Cell.num 1 ↔ trimChars "true" = ['1'])
    ∧ normCell "true" = Cell.num 0
    ∧ normCell (getCell ["CourseA"] ["1"] "CourseA")
        ∈ pivotRowA ["CourseA"] "N" ["CourseA"] ["1"] := by
  have h := c2_csv_normalization "true" ["CourseA"] "N" ["CourseA"] ["1"]
    "CourseA" (by decide)
  exact ⟨h.1, h.2.1 (by decide), h.2.2⟩

/-- C8: the spec's concrete CSV scenario produces exactly the expected
pivot: columns [Employee Name, CourseA, CourseB, Division/ Unit] and rows
(Alice,1,0,HR), (Bob,0,1,IT). -/
theorem c8_csv_scenario : stratA c8input = Except.ok c8output := by rfl

/-- C9: strategy dispatch depends only on the lowered file name's ".csv"
suffix; the parsed contents (CSV view or sheets view, of any shape,
including a single-sheet workbook) play no role in the choice. -/
theorem c9_dispatch_by_name (nm : String) (csv : RawTable)
    (sheets : List (String × RawTable)) :
    (isCsvName nm = true → processUpload ⟨nm, csv, sheets⟩ = stratA csv)
    ∧ (isCsvName nm = false → processUpload ⟨nm, csv, sheets⟩ = stratB sheets) := by
  constructor <;> intro h <;> simp [processUpload, h]

theorem c9_dispatch_by_name_witness :
    processUpload ⟨"Report.CSV", c8input, w1sheets⟩ = stratA c8input
    ∧ processUpload ⟨"book.xlsx", c8input, w1sheets⟩ = stratB w1sheets :=
  ⟨(c9_dispatch_by_name "Report.CSV" c8input w1sheets).1 (by decide),
   (c9_dispatch_by_name "book.xlsx" c8input w1sheets).2 (by decide)⟩

/-- C4: the PUT body carries a "sha" field exactly when the GET came back
200 with a (truthy) sha captured; a 404 GET leads to a PUT without "sha";
any other GET status is fatal — the run reports the status and never sends
the PUT. -/
theorem c4_sha_protocol (r : RespGet) (content : String) :
    (∀ s, shaDecision r = Except.ok s →
      ((mkPayload content s).sha ≠ none
        ↔ r.status = 200 ∧ ∃ j v, r.json = some j ∧ j.truthy = true
            ∧ j.sha = some v ∧ v ≠ ""))
    ∧ (r.status = 404 →
        shaDecision r = Except.ok none
        ∧ ∀ u pv, processUpload u = Except.ok pv →
            (runFlow u r).1
              = [NetCall.get, NetCall.put (mkPayload (pivotToCSV pv) none)])
    ∧ (r.status ≠ 200 → r.status ≠ 404 →
        shaDecision r = Except.error r.status
        ∧ (∀ u pv, processUpload u = Except.ok pv →
            (runFlow u r).1 = [NetCall.get])
        ∧ ∀ u p, NetCall.put p ∉ (runFlow u r).1) := by
  refine ⟨?_, ?_, ?_⟩
  · intro s hs
    unfold shaDecision at hs
    split_ifs at hs with h1 h2
    · obtain ⟨h200, htr⟩ := h1
      rcases hj : r.json with _ | j
      · simp [jsonTruthy, hj] at htr
      · rw [hj] at hs
        injection hs with hs
        subst hs
        simp only [jsonTruthy, hj] at htr
        rcases hsha : j.sha with _ | v
        · simp [mkPayload, shaIfTruthy, hsha, hj, htr, h200]
        · by_cases hv : v = ""
          · simp [mkPayload, shaIfTruthy, hsha, hj, htr, h200, hv]
          · simp [mkPayload, shaIfTruthy, hsha, hj, htr, h200, hv]
    · injection hs with hs
      subst hs
      simp only [mkPayload, shaIfTruthy, ne_eq, not_true_eq_false, false_iff]
      rintro ⟨h200, -⟩
      rw [h200] at h2
      cases h2
  · intro h404
    have hsd : shaDecision r = Except.ok none := by
      unfold shaDecision
      rw [if_neg, if_pos h404]
      rintro ⟨h200, -⟩
      exact absurd (h200.symm.trans h404) (by decide)
    refine ⟨hsd, ?_⟩
    intro u pv hu
    unfold runFlow
    rw [hu, hsd]
  · intro h200 h404
    have hsd : shaDecision r = Except.error r.status := by
      unfold shaDecision
      rw [if_neg, if_neg h404]
      rintro ⟨h, -⟩
      exact h200 h
    refine ⟨hsd, ?_, ?_⟩
    · intro u pv hu
      unfold runFlow
      rw [hu, hsd]
    · intro u p
      unfold runFlow
      rcases hu : processUpload u with e | pv
      · simp
      · rw [hsd]
        simp

theorem c4_sha_protocol_witness :
    shaDecision ⟨404, none⟩ = Except.ok none
    ∧ (runFlow ⟨"pivot.csv", c8input, []⟩ ⟨404, none⟩).1
        = [NetCall.get, NetCall.put (mkPayload (pivotToCSV c8output) none)] := by
  have h := (c4_sha_protocol ⟨404, none⟩ "x").2.1 rfl
  exact ⟨h.1, h.2 ⟨"pivot.csv", c8input, []⟩ c8output (by rfl)⟩

/-- C10: with a division column present, the division-attachment lookup
raises (pandas `InvalidIndexError`) exactly when some identifier carries two
distinct division values; when every identifier has at most one division
value the lookup succeeds and maps each identifier to that value; and a
lookup error aborts Strategy A instead of producing a pivot. -/
theorem c10_division_conflict (pairs : List (String × String))
    (keys : List String) (raw : RawTable) (d : String) :
    ((∃ n d1 d2, (n, d1) ∈ pairs ∧ (n, d2) ∈ pairs ∧ d1 ≠ d2) →
      divLookup pairs keys = Except.error PErr.invalidIndex)
    ∧ ((∀ n d1 d2, (n, d1) ∈ pairs → (n, d2) ∈ pairs → d1 = d2) →
        divLookup pairs keys = Except.ok (keys.map (lookupFn pairs))
        ∧ ∀ k v, (k, v) ∈ pairs → lookupFn pairs k = some v)
    ∧ (findDivisionCol (prepCSV raw).cols = some d →
        ∀ e, divLookup (divPairsA raw d) (nameValsA raw) = Except.error e →
          stratA raw = Except.error e) := by
  refine ⟨?_, ?_, ?_⟩
  · rintro ⟨n, d1, d2, h1, h2, hne⟩
    exact divLookup_conflict keys h1 h2 hne
  · intro hcons
    exact ⟨divLookup_consistent hcons keys,
      fun k v hkv => lookupFn_eq hcons hkv⟩
  · intro hdiv e hdl
    simp [stratA, hdiv, hdl]

theorem c10_division_conflict_witness :
    divLookup [("A", "X"), ("A", "Y")] ["A"]
      = Except.error PErr.invalidIndex :=
  (c10_division_conflict [("A", "X"), ("A", "Y")] ["A"] ⟨[], []⟩ "d").1
    ⟨"A", "X", "Y", by decide, by decide, by decide⟩

/-- C5: when no sheet of the workbook has any RMS TP match (no cell of any
row contains "RMS TP" case-insensitively), processing fails with the
no-RMS-TP error and the run issues no network call at all. -/
theorem c5_no_rmstp_halts (sheets : List (String × RawTable))
    (h : ∀ s ∈ sheets, ∀ r ∈ (prepSheet s.2).rows, ∀ cell ∈ r,
        containsCI "RMS TP" cell = false) :
    stratB sheets = Except.error PErr.noRMSTP
    ∧ ∀ nm csv g, isCsvName nm = false →
        (runFlow ⟨nm, csv, sheets⟩ g).1 = [] := by
  have hsv : surviving sheets = [] :=
    surviving_eq_nil (fun s hs => filterSheet_eq_nil (h s hs))
  have hrows : (combine sheets).rows = [] := by
    unfold combine
    rw [hsv]
    rfl
  have hB : stratB sheets = Except.error PErr.noRMSTP := by
    unfold stratB
    rw [if_pos (by rw [hrows]; rfl)]
  refine ⟨hB, ?_⟩
  intro nm csv g hnm
  simp [runFlow, processUpload, hnm, hB]

theorem c5_no_rmstp_halts_witness :
    stratB [("Sheet1", RawTable.mk ["Col1"] [["x"]])] = Except.error PErr.noRMSTP
    ∧ (runFlow ⟨"book.xlsx", ⟨[], []⟩, [("Sheet1", ⟨["Col1"], [["x"]]⟩)]⟩
        ⟨404, none⟩).1 = [] := by
  have h := c5_no_rmstp_halts [("Sheet1", ⟨["Col1"], [["x"]]⟩)] (by decide)
  exact ⟨h.1, h.2 "book.xlsx" ⟨[], []⟩ ⟨404, none⟩ (by decide)⟩

/-- C6: in the workbook path the identifier must match one of the
recognized names exactly; if no combined column does, the run fails with
the missing-name-column error before any network call — there is no
positional fallback. -/
theorem c6_name_col_required (sheets : List (String × RawTable))
    (hne : (combine sheets).rows ≠ [])
    (hno : ∀ c ∈ (combine sheets).cols, c ∉ possible_name_cols) :
    stratB sheets = Except.error PErr.noNameCol
    ∧ ∀ nm csv g, isCsvName nm = false →
        (runFlow ⟨nm, csv, sheets⟩ g).1 = [] := by
  have hfind : findNameColB sheets = none := by
    unfold findNameColB
    apply List.find?_eq_none.mpr
    intro c hc
    simp [hno c hc]
  have hB : stratB sheets = Except.error PErr.noNameCol := by
    unfold stratB
    rw [if_neg (by simpa [List.isEmpty_iff] using hne)]
    rw [hfind]
  refine ⟨hB, ?_⟩
  intro nm csv g hnm
  simp [runFlow, processUpload, hnm, hB]

theorem c6_name_col_required_witness :
    stratB [("CourseX", RawTable.mk ["Official", "Remarks"]
        [["Alice", "has RMS TP flag"]])] = Except.error PErr.noNameCol
    ∧ (runFlow ⟨"book.xlsx", ⟨[], []⟩,
        [("CourseX", ⟨["Official", "Remarks"], [["Alice", "has RMS TP flag"]]⟩)]⟩
        ⟨404, none⟩).1 = [] := by
  have h := c6_name_col_required
    [("CourseX", ⟨["Official", "Remarks"], [["Alice", "has RMS TP flag"]]⟩)]
    (by decide) (by decide)
  exact ⟨h.1, h.2 "book.xlsx" ⟨[], []⟩ ⟨404, none⟩ (by decide)⟩

/-- C7: a sheet's rows are kept exactly as the code's filter dictates —
division-column substring match when a division column exists, any-cell
substring match otherwise — and a sheet whose filter comes back empty
contributes nothing to the combined table. -/
theorem c7_rmstp_filter (raw : RawTable) (r : List String)
    (pre post : List (String × RawTable)) (s : String × RawTable)
    (hs : filterSheet (prepSheet s.2) = []) :
    (r ∈ filterSheet (prepSheet raw) ↔
      r ∈ (prepSheet raw).rows ∧
        (match findDivisionCol (prepSheet raw).cols with
         | some d => containsCI "RMS TP" (getCell (prepSheet raw).cols r d) = true
         | none => r.any (fun cell => containsCI "RMS TP" cell) = true))
    ∧ combine (pre ++ s :: post) = combine (pre ++ post) := by
  constructor
  · unfold filterSheet
    rcases hd : findDivisionCol (prepSheet raw).cols with _ | d <;>
      simp [hd, List.mem_filter]
  · unfold combine
    rw [surviving_append_skip pre post s hs]

theorem c7_rmstp_filter_witness :
    (["in RMS TP"] ∈ filterSheet (prepSheet ⟨["Division"], [["in RMS TP"]]⟩) ↔
      ["in RMS TP"] ∈ (prepSheet ⟨["Division"], [["in RMS TP"]]⟩).rows ∧
        (match findDivisionCol (prepSheet ⟨["Division"], [["in RMS TP"]]⟩).cols with
         | some d => containsCI "RMS TP"
            (getCell (prepSheet ⟨["Division"], [["in RMS TP"]]⟩).cols ["in RMS TP"] d) = true
         | none => (["in RMS TP"].any (fun cell => containsCI "RMS TP" cell)) = true))
    ∧ combine ([] ++ ("Empty", RawTable.mk ["A"] [["x"]]) :: w1sheets)
        = combine ([] ++ w1sheets) :=
  c7_rmstp_filter ⟨["Division"], [["in RMS TP"]]⟩ ["in RMS TP"] [] w1sheets
    ("Empty", ⟨["A"], [["x"]]⟩) (by decide)

/-- C1 counterexample: a CSV whose identifier column repeats "Alice" is
processed to completion by Strategy A, yet the resulting pivot carries two
rows with the same identifier — the rows are not collapsed. -/
theorem c1_unique_idents_cex :
    stratA c1input
      = Except.ok ⟨["Employee Name", "CourseA"],
          [[Cell.str "Alice", Cell.num 1], [Cell.str "Alice", Cell.num 0]]⟩
    ∧ ¬ (idents ⟨["Employee Name", "CourseA"],
          [[Cell.str "Alice", Cell.num 1], [Cell.str "Alice", Cell.num 0]]⟩).Nodup := by
  constructor
  · rfl
  · decide

/-- C1 amended: identifier values are always unique across the rows of a
Strategy B pivot; Strategy A does not collapse rows — its pivot has one row
per input row, with the identifiers equal to the input identifier-column
values, so its identifiers are unique exactly when the input's already are. -/
theorem c1_unique_idents_amended (sheets : List (String × RawTable))
    (raw : RawTable) :
    (∀ p, stratB sheets = Except.ok p → (idents p).Nodup)
    ∧ (∀ p, stratA raw = Except.ok p →
        idents p = (nameValsA raw).map Cell.str) := by
  constructor
  · intro p hp
    rcases stratB_ok_findName hp with ⟨nm, hnm⟩
    rw [(stratB_ok_shape hnm hp).2]
    exact (nodup_namesB sheets nm).map cellStr_inj
  · intro p hp
    exact (stratA_ok_shape hp).2

theorem c1_unique_idents_amended_witness :
    (idents w1pivot).Nodup
    ∧ idents c8output = (nameValsA c8input).map Cell.str := by
  have h := c1_unique_idents_amended w1sheets c8input
  exact ⟨h.1 w1pivot (by rfl), h.2 c8output (by rfl)⟩

/-- C3 counterexample: a workbook whose sheets appear in the order Zeta,
Alpha processes to completion, but the course columns of the pivot come out
in sorted order Alpha, Zeta — not in order of first appearance. -/
theorem c3_column_order_cex :
    stratB c3sheets
      = Except.ok ⟨["Employee Name", "Alpha", "Zeta"],
          [[Cell.str "Alice", Cell.num 0, Cell.num 1],
           [Cell.str "Bob", Cell.num 1, Cell.num 0]]⟩
    ∧ ["Employee Name", "Alpha", "Zeta"]
        ≠ ["Employee Name", "Zeta", "Alpha"] := by
  constructor
  · rfl
  · decide

/-- C3 amended: the pivot's column order is the identifier first and the
division column last if present, with the course columns in input column
order for Strategy A but in lexicographically sorted order (not first-seen
order) for Strategy B. There the course columns are exactly the "Course
Name" (sheet-name) tags of the combined rows whose identifier value is
present — the aggregation drops rows whose identifier key is missing — so
every course column is the name of a sheet that contributed surviving rows,
but a sheet all of whose surviving rows lack the identifier contributes no
column. -/
theorem c3_column_order_amended (raw : RawTable)
    (sheets : List (String × RawTable)) :
    (∀ p, stratA raw = Except.ok p →
      p.cols = nameColA (prepCSV raw).cols :: courseColsA (prepCSV raw).cols
          ++ divTail (findDivisionCol (prepCSV raw).cols))
    ∧ (∀ p nm, findNameColB sheets = some nm → stratB sheets = Except.ok p →
        p.cols = nm :: coursesB sheets nm
            ++ divTail (findDivisionCol (combine sheets).cols)
        ∧ List.Sorted (fun a b => strLe a b = true) (coursesB sheets nm)
        ∧ (∀ co, co ∈ coursesB sheets nm ↔
            ∃ r ∈ (combine sheets).rows,
              getCell (combine sheets).cols r nm ≠ ""
              ∧ getCell (combine sheets).cols r "Course Name" = co)
        ∧ ∀ co, co ∈ coursesB sheets nm →
            co ∈ (surviving sheets).map Prod.fst) := by
  constructor
  · intro p hp
    exact (stratA_ok_shape hp).1
  · intro p nm hnm hp
    exact ⟨(stratB_ok_shape hnm hp).1, List.sorted_insertionSort _ _,
      fun co => mem_coursesB, fun co hco => coursesB_subset_sheetNames hco⟩

theorem c3_column_order_amended_witness :
    c8output.cols = nameColA (prepCSV c8input).cols
        :: courseColsA (prepCSV c8input).cols
        ++ divTail (findDivisionCol (prepCSV c8input).cols)
    ∧ w1pivot.cols = "Employee Name" :: coursesB w1sheets "Employee Name"
        ++ divTail (findDivisionCol (combine w1sheets).cols)
    ∧ List.Sorted (fun a b => strLe a b = true)
        (coursesB w1sheets "Employee Name")
    ∧ ("CourseX" ∈ coursesB w1sheets "Employee Name" ↔
        ∃ r ∈ (combine w1sheets).rows,
          getCell (combine w1sheets).cols r "Employee Name" ≠ ""
          ∧ getCell (combine w1sheets).cols r "Course Name" = "CourseX")
    ∧ ("CourseX" ∈ coursesB w1sheets "Employee Name" →
        "CourseX" ∈ (surviving w1sheets).map Prod.fst) := by
  have hA := (c3_column_order_amended c8input w1sheets).1 c8output (by rfl)
  have hB := (c3_column_order_amended c8input w1sheets).2 w1pivot
    "Employee Name" (by rfl) (by rfl)
  exact ⟨hA, hB.1, hB.2.1, hB.2.2.1 "CourseX", hB.2.2.2 "CourseX"⟩

end AdminUpload
